import Mathlib

/-!
Shallow embedding of the ConceptCapsules video watch-progress tracker.

The Progress Store is translated from the `useVideoProgress` hook revision
that carries load-time normalization (src/unnamed/part_011, storage key
`concept-capsule-progress-v3`).  JavaScript numbers are modelled as `ℚ`,
timestamps (`Date.now()`) as an explicit `ℤ` argument, and the in-memory
map plus the localStorage copy as a pair of partial maps.  A boolean
`ok` argument models whether a localStorage write succeeds; the source
wraps every write in try/catch, so a failing write leaves the persisted
copy unchanged and no exception escapes (the Lean operations are total).

The fallback-loading state machine is translated from the VideoPlayer
revision in src/unnamed/part_007, and the watch-time estimator from
src/src/components/VideoPlayer.tsx.
-/

set_option maxRecDepth 4000

namespace ConceptCapsules

/-- One per-item progress record (interface `VideoProgressData`). -/
structure VideoProgressData where
  watchedSeconds : ℚ
  duration : ℚ
  percentage : ℚ
  lastWatched : ℤ
  isCompleted : Bool
deriving DecidableEq, Repr

/-- The keyed progress map (interface `VideoProgress`): byteId to record. -/
def VideoProgress : Type := String → Option VideoProgressData

/-- The empty progress object. -/
def emptyProgress : VideoProgress := fun _ => none

/-- JS object update `x[k] = v` on the modelled map. -/
def setKey (m : VideoProgress) (k : String) (v : VideoProgressData) : VideoProgress :=
  fun k2 => if k2 = k then some v else m k2

/-- Removal of one key, as in `const placeholder = rest` destructuring. -/
def delKey (m : VideoProgress) (k : String) : VideoProgress :=
  fun k2 => if k2 = k then none else m k2

/-- In-memory React state plus the localStorage copy under the fixed key. -/
@[ext] structure StoreState where
  mem : VideoProgress
  disk : VideoProgress

/-- Fresh hook state over empty storage. -/
def initState : StoreState := { mem := emptyProgress, disk := emptyProgress }

/-- `saveProgress`: try to persist; a throwing write is caught and logged,
leaving the persisted copy unchanged.  `ok` tells whether the write
succeeded. -/
def saveDisk (ok : Bool) (newMap : VideoProgress) (oldDisk : VideoProgress) :
    VideoProgress :=
  if ok then newMap else oldDisk

/-- The object literal written by the accepted path of `updateProgress`
(src/unnamed/part_011 lines 102 to 111): zeroed `watchedSeconds` and
`duration`, percentage pinned to 100 once the clamped value reaches 95,
fresh timestamp. -/
def acceptedRecord (clampedPercentage : ℚ) (now : ℤ) : VideoProgressData :=
  let isNowCompleted := decide (95 ≤ clampedPercentage)
  { watchedSeconds := 0, duration := 0,
    percentage := if isNowCompleted then 100 else clampedPercentage,
    lastWatched := now, isCompleted := isNowCompleted }

/-- `updateProgress(byteId, percentage)` from src/unnamed/part_011 lines
71 to 116: rejects an empty id or a negative percentage, clamps to at
most 100, repairs an inconsistent completed record, refuses regressions,
pins the percentage to 100 once the clamped value reaches 95, and
persists through `saveProgress`. -/
def updateProgress (s : StoreState) (byteId : String) (percentage : ℚ)
    (now : ℤ) (ok : Bool) : StoreState :=
  if byteId = "" ∨ percentage < 0 then s
  else
    let clampedPercentage := min percentage 100
    match s.mem byteId with
    | some existing =>
      if existing.isCompleted then
        if existing.percentage ≠ 100 then
          let repaired := setKey s.mem byteId { existing with percentage := 100 }
          { mem := repaired, disk := saveDisk ok repaired s.disk }
        else s
      else if clampedPercentage < existing.percentage then s
      else
        let newMap := setKey s.mem byteId (acceptedRecord clampedPercentage now)
        { mem := newMap, disk := saveDisk ok newMap s.disk }
    | none =>
        let newMap := setKey s.mem byteId (acceptedRecord clampedPercentage now)
        { mem := newMap, disk := saveDisk ok newMap s.disk }

/-- `markCompleted(byteId)` from src/unnamed/part_011 lines 119 to 144:
defaults an absent record, then force-sets percentage 100, completion,
and a fresh `lastWatched` timestamp. -/
def markCompleted (s : StoreState) (byteId : String) (now : ℤ) (ok : Bool) :
    StoreState :=
  if byteId = "" then s
  else
    let existing := (s.mem byteId).getD
      { watchedSeconds := 0, duration := 0, percentage := 100,
        lastWatched := now, isCompleted := false }
    let newMap := setKey s.mem byteId
      { existing with percentage := 100, isCompleted := true, lastWatched := now }
    { mem := newMap, disk := saveDisk ok newMap s.disk }

/-- `getProgress(byteId)` returns the record or null. -/
def getProgress (s : StoreState) (byteId : String) : Option VideoProgressData :=
  s.mem byteId

/-- `isCompleted(byteId)`: absent record reads as false. -/
def isCompletedOf (s : StoreState) (byteId : String) : Bool :=
  ((s.mem byteId).map VideoProgressData.isCompleted).getD false

/-- `resetAllProgress()`: `localStorage.removeItem` then `setProgress(em)`
inside one try block — if the removal throws, the in-memory clear is
never reached and the catch only logs. -/
def resetAllProgress (s : StoreState) (ok : Bool) : StoreState :=
  if ok then { mem := emptyProgress, disk := emptyProgress } else s

/-- `resetVideoProgress(byteId)`: drops one key and persists the rest. -/
def resetVideoProgress (s : StoreState) (byteId : String) (ok : Bool) :
    StoreState :=
  if byteId = "" then s
  else
    let rest := delKey s.mem byteId
    { mem := rest, disk := saveDisk ok rest s.disk }

/-- Per-record normalization from the load effect of src/unnamed/part_011
lines 29 to 47: a completed record off 100 is repaired, and a record at
95 or above that is not completed is promoted to completed at 100 (both
conditions read the original record). -/
def normalizeRecord (d : VideoProgressData) : VideoProgressData :=
  let d1 := if d.isCompleted = true ∧ d.percentage ≠ 100 then
    { d with percentage := 100 } else d
  if 95 ≤ d.percentage ∧ d.isCompleted = false then
    { d1 with isCompleted := true, percentage := 100 } else d1

/-- Whether a record trips the `needsUpdate` flag in the load effect. -/
def recNeedsUpdate (d : VideoProgressData) : Bool :=
  (d.isCompleted && decide (d.percentage ≠ 100)) ||
    (decide (95 ≤ d.percentage) && !d.isCompleted)

/-- Pointwise normalization of a whole progress map. -/
def normalizeMap (m : VideoProgress) : VideoProgress :=
  fun k => (m k).map normalizeRecord

/-- The parsed JSON object, entry list in object order. -/
abbrev Entries : Type := List (String × VideoProgressData)

/-- Building a JS object from its entries: later assignments override. -/
def toMap (l : Entries) : VideoProgress :=
  l.foldl (fun m e => setKey m e.1 e.2) emptyProgress

/-- The `reduce` of the load effect: each entry normalized in place. -/
def normalizeEntries (l : Entries) : Entries :=
  l.map (fun e => (e.1, normalizeRecord e.2))

/-- The `needsUpdate` flag accumulated over all entries. -/
def loadNeedsUpdate (l : Entries) : Bool :=
  l.any (fun e => recNeedsUpdate e.2)

/-- The in-memory state set by the load effect for stored entries `l`. -/
def loadMem (l : Entries) : VideoProgress :=
  toMap (normalizeEntries l)

/-- What remains persisted after the load effect: the normalized form is
written back exactly when a record changed (and the write succeeds). -/
def loadDisk (l : Entries) (ok : Bool) : Entries :=
  if loadNeedsUpdate l && ok then normalizeEntries l else l

/-- One Progress Store operation, for reasoning over whole sessions.
`reload` is a process restart: the in-memory map is rebuilt by the load
effect as the normalization of what is persisted, and `writeBack` tells
whether the conditional re-persist of the normalized form took effect
(it is skipped when nothing changed or the write throws).  The
map-level `normalizeMap` agrees pointwise with the entry-level load
(`toMap_normalizeEntries` below). -/
inductive StoreOp where
  | update (id : String) (pct : ℚ) (now : ℤ) (ok : Bool)
  | mark (id : String) (now : ℤ) (ok : Bool)
  | resetAll (ok : Bool)
  | resetOne (id : String) (ok : Bool)
  | reload (writeBack : Bool)

/-- Interpretation of one operation. -/
def applyOp (s : StoreState) : StoreOp → StoreState
  | .update id pct now ok => updateProgress s id pct now ok
  | .mark id now ok => markCompleted s id now ok
  | .resetAll ok => resetAllProgress s ok
  | .resetOne id ok => resetVideoProgress s id ok
  | .reload wb =>
      { mem := normalizeMap s.disk,
        disk := if wb then normalizeMap s.disk else s.disk }

/-- Interpretation of an operation sequence. -/
def applyOps (ops : List StoreOp) (s : StoreState) : StoreState :=
  ops.foldl applyOp s

/-- The completion invariant on one map: completed records read 100. -/
def mapInv (m : VideoProgress) : Prop :=
  ∀ id r, m id = some r → r.isCompleted = true → r.percentage = 100

/-- The completion invariant on both the live map and the persisted one. -/
def storeInv (s : StoreState) : Prop := mapInv s.mem ∧ mapInv s.disk

/-- The fixed fallback load timeout, `IFRAME_LOAD_TIMEOUT = 10000` ms
(src/unnamed/part_007 line 427). -/
def IFRAME_LOAD_TIMEOUT : ℕ := 10000

/-- Fallback-surface state of the VideoPlayer revision in
src/unnamed/part_007: the `iframeLoaded` / `iframeError` flags, the
remount key, and the pending load timeout (duration in ms) armed by the
timeout effect at lines 482 to 496. -/
structure FallbackState where
  iframeLoaded : Bool
  iframeError : Bool
  iframeKey : ℕ
  pendingTimeout : Option ℕ
deriving DecidableEq, Repr

/-- Events driving the fallback surface. -/
inductive FallbackEvent where
  | startLoad
  | loadSignal
  | timeoutFire
  | retry
deriving DecidableEq, Repr

/-- The timeout effect: armed with the fixed duration exactly while the
surface is neither loaded nor in error; otherwise the cleanup has
cancelled it. -/
def armTimeout (loaded err : Bool) : Option ℕ :=
  if !loaded && !err then some IFRAME_LOAD_TIMEOUT else none

/-- One transition of the fallback surface.
`startLoad` is the byte-change reset (lines 443 to 479): flags cleared,
key bumped, effect re-arms the timeout.
`loadSignal` is the iframe `onLoad` handler: sets loaded, clears error,
and the effect cleanup cancels the timeout.
`timeoutFire` is the armed callback: if the frame has not loaded it sets
`iframeError`; either way the timer is spent and, in error, not re-armed.
`retry` is `handleRetryIframe` (lines 552 to 556): clears error and
loaded, bumps the key so a fresh iframe mounts, and the effect arms a
fresh timeout. -/
def fallbackStep (s : FallbackState) (e : FallbackEvent) : FallbackState :=
  match e with
  | .startLoad =>
      { iframeLoaded := false, iframeError := false,
        iframeKey := s.iframeKey + 1, pendingTimeout := armTimeout false false }
  | .loadSignal =>
      { iframeLoaded := true, iframeError := false,
        iframeKey := s.iframeKey, pendingTimeout := armTimeout true false }
  | .timeoutFire =>
      if s.pendingTimeout.isSome then
        let err := if !s.iframeLoaded then true else s.iframeError
        { iframeLoaded := s.iframeLoaded, iframeError := err,
          iframeKey := s.iframeKey, pendingTimeout := armTimeout s.iframeLoaded err }
      else s
  | .retry =>
      { iframeLoaded := false, iframeError := false,
        iframeKey := s.iframeKey + 1, pendingTimeout := armTimeout false false }

/-- FallbackLoading: neither loaded nor in error. -/
def isFallbackLoading (s : FallbackState) : Prop :=
  s.iframeLoaded = false ∧ s.iframeError = false

/-- FallbackReady: the load signal has arrived. -/
def isFallbackReady (s : FallbackState) : Prop := s.iframeLoaded = true

/-- FallbackError: the error overlay with the retry action is shown. -/
def isFallbackError (s : FallbackState) : Prop :=
  s.iframeError = true ∧ s.iframeLoaded = false

/-- `ESTIMATED_VIDEO_DURATION = 60` seconds
(src/src/components/VideoPlayer.tsx line 120). -/
def ESTIMATED_VIDEO_DURATION : ℚ := 60

/-- Session state of the watch-time estimator in
src/src/components/VideoPlayer.tsx composed with the Progress Store:
`watchTime` and `loopCount` are the component state, `didMark` is
`didMarkCompletedRef`, and `markCalls` counts `onMarkCompleted` firings. -/
structure EstimatorState where
  watchTime : ℕ
  loopCount : ℕ
  didMark : Bool
  markCalls : ℕ
  store : StoreState

/-- Fresh session for a byte over the given store. -/
def estInit (s : StoreState) : EstimatorState :=
  { watchTime := 0, loopCount := 0, didMark := false, markCalls := 0, store := s }

/-- The synthetic percentage the estimator computes from a watch time
(lines 150 and 162): `min (watchTime / 60 * 100) 100`. -/
def estPercentage (watchTime : ℕ) : ℚ :=
  min ((watchTime : ℚ) / ESTIMATED_VIDEO_DURATION * 100) 100

/-- The `currentProgress` prop: stored percentage of the byte, or 0. -/
def currentProgressOf (s : StoreState) (byteId : String) : ℚ :=
  ((s.mem byteId).map VideoProgressData.percentage).getD 0

/-- One second of active, tab-visible watching of `byteId`
(src/src/components/VideoPlayer.tsx lines 123 to 189): the interval
increments `watchTime`; the progress effect forwards the synthetic
percentage to `updateProgress` only while not completed and strictly
above `currentProgress`; the completion effect calls `onMarkCompleted`
at most once when the synthetic percentage reaches 95; the loop effect
resets `watchTime` after a full assumed duration.  All three effects of
one tick read the props rendered before the tick's store mutations. -/
def estTick (byteId : String) (now : ℤ) (s : EstimatorState) : EstimatorState :=
  let wt := s.watchTime + 1
  let pct := estPercentage wt
  let completedProp := isCompletedOf s.store byteId
  let currentProgress := currentProgressOf s.store byteId
  let st1 := if completedProp = false ∧ currentProgress < pct then
    updateProgress s.store byteId pct now true else s.store
  let fire := completedProp = false ∧ s.didMark = false ∧ 95 ≤ pct
  let st2 := if fire then markCompleted st1 byteId now true else st1
  let wt2 := if ESTIMATED_VIDEO_DURATION ≤ (wt : ℚ) then 0 else wt
  let lc2 := if ESTIMATED_VIDEO_DURATION ≤ (wt : ℚ) then s.loopCount + 1 else s.loopCount
  { watchTime := wt2, loopCount := lc2,
    didMark := s.didMark || decide fire,
    markCalls := s.markCalls + (if fire then 1 else 0),
    store := st2 }

/-- `t` consecutive active visible ticks on a fresh session over an empty
store, the i-th tick at wall-clock time i. -/
def runTicks (byteId : String) : ℕ → EstimatorState
  | 0 => estInit initState
  | t + 1 => estTick byteId (t + 1 : ℕ) (runTicks byteId t)

/-! Basic map lemmas. -/

theorem setKey_self (m : VideoProgress) (k : String) (v : VideoProgressData) :
    setKey m k v k = some v := by
  simp [setKey]

theorem setKey_ne (m : VideoProgress) (k : String) (v : VideoProgressData)
    (k2 : String) (h : k2 ≠ k) : setKey m k v k2 = m k2 := by
  simp [setKey, h]

/-! Case characterizations of `updateProgress`. -/

theorem updateProgress_guard_nop (s : StoreState) (id : String) (p : ℚ)
    (n : ℤ) (ok : Bool) (h : id = "" ∨ p < 0) :
    updateProgress s id p n ok = s := by
  simp [updateProgress, h]

theorem updateProgress_completed_nop (s : StoreState) (id : String) (p : ℚ)
    (n : ℤ) (ok : Bool) (r : VideoProgressData)
    (hid : id ≠ "") (hp : 0 ≤ p) (hm : s.mem id = some r)
    (hc : r.isCompleted = true) (h100 : r.percentage = 100) :
    updateProgress s id p n ok = s := by
  have hg : ¬(id = "" ∨ p < 0) := by
    push_neg
    exact ⟨hid, hp⟩
  simp [updateProgress, hg, hm, hc, h100]

theorem updateProgress_repair (s : StoreState) (id : String) (p : ℚ)
    (n : ℤ) (ok : Bool) (r : VideoProgressData)
    (hid : id ≠ "") (hp : 0 ≤ p) (hm : s.mem id = some r)
    (hc : r.isCompleted = true) (h100 : r.percentage ≠ 100) :
    updateProgress s id p n ok =
      { mem := setKey s.mem id { r with percentage := 100 },
        disk := saveDisk ok (setKey s.mem id { r with percentage := 100 }) s.disk } := by
  have hg : ¬(id = "" ∨ p < 0) := by
    push_neg
    exact ⟨hid, hp⟩
  simp [updateProgress, hg, hm, hc, h100]

theorem updateProgress_reject (s : StoreState) (id : String) (p : ℚ)
    (n : ℤ) (ok : Bool) (r : VideoProgressData)
    (hid : id ≠ "") (hp : 0 ≤ p) (hm : s.mem id = some r)
    (hc : r.isCompleted = false) (hlt : min p 100 < r.percentage) :
    updateProgress s id p n ok = s := by
  have hg : ¬(id = "" ∨ p < 0) := by
    push_neg
    exact ⟨hid, hp⟩
  simp [updateProgress, hg, hm, hc, hlt]

theorem updateProgress_accept (s : StoreState) (id : String) (p : ℚ)
    (n : ℤ) (ok : Bool) (r : VideoProgressData)
    (hid : id ≠ "") (hp : 0 ≤ p) (hm : s.mem id = some r)
    (hc : r.isCompleted = false) (hge : r.percentage ≤ min p 100) :
    updateProgress s id p n ok =
      { mem := setKey s.mem id (acceptedRecord (min p 100) n),
        disk := saveDisk ok (setKey s.mem id (acceptedRecord (min p 100) n)) s.disk } := by
  have hg : ¬(id = "" ∨ p < 0) := by
    push_neg
    exact ⟨hid, hp⟩
  have hlt : ¬(min p 100 < r.percentage) := not_lt.2 hge
  simp [updateProgress, hg, hm, hc, hlt]

theorem updateProgress_fresh (s : StoreState) (id : String) (p : ℚ)
    (n : ℤ) (ok : Bool)
    (hid : id ≠ "") (hp : 0 ≤ p) (hm : s.mem id = none) :
    updateProgress s id p n ok =
      { mem := setKey s.mem id (acceptedRecord (min p 100) n),
        disk := saveDisk ok (setKey s.mem id (acceptedRecord (min p 100) n)) s.disk } := by
  have hg : ¬(id = "" ∨ p < 0) := by
    push_neg
    exact ⟨hid, hp⟩
  simp [updateProgress, hg, hm]

/-! Facts about the accepted record. -/

theorem acceptedRecord_completed (c : ℚ) (n : ℤ) (h : 95 ≤ c) :
    (acceptedRecord c n).isCompleted = true ∧ (acceptedRecord c n).percentage = 100 := by
  simp [acceptedRecord, h]

theorem acceptedRecord_below95 (c : ℚ) (n : ℤ) (h : c < 95) :
    (acceptedRecord c n).isCompleted = false ∧ (acceptedRecord c n).percentage = c := by
  simp [acceptedRecord, not_le.2 h]

theorem acceptedRecord_inv (c : ℚ) (n : ℤ)
    (h : (acceptedRecord c n).isCompleted = true) :
    (acceptedRecord c n).percentage = 100 := by
  by_cases hc : 95 ≤ c
  · exact (acceptedRecord_completed c n hc).2
  · exact absurd h (by simp [(acceptedRecord_below95 c n (not_le.1 hc)).1])

/-! Normalization facts. -/

theorem normalizeRecord_completed (d : VideoProgressData)
    (h : d.isCompleted = true) :
    (normalizeRecord d).isCompleted = true ∧ (normalizeRecord d).percentage = 100 := by
  unfold normalizeRecord
  by_cases h100 : d.percentage = 100 <;> simp [h, h100]

theorem normalizeRecord_promote (d : VideoProgressData)
    (h95 : 95 ≤ d.percentage) (hnc : d.isCompleted = false) :
    (normalizeRecord d).isCompleted = true ∧ (normalizeRecord d).percentage = 100 := by
  unfold normalizeRecord
  simp [h95, hnc]

theorem normalizeRecord_id (d : VideoProgressData)
    (hnc : d.isCompleted = false) (h95 : ¬ 95 ≤ d.percentage) :
    normalizeRecord d = d := by
  simp [normalizeRecord, hnc, h95]

theorem normalizeRecord_inv (d : VideoProgressData)
    (h : (normalizeRecord d).isCompleted = true) :
    (normalizeRecord d).percentage = 100 := by
  by_cases hc : d.isCompleted = true
  · exact (normalizeRecord_completed d hc).2
  · have hnc : d.isCompleted = false := by simpa using hc
    by_cases h95 : 95 ≤ d.percentage
    · exact (normalizeRecord_promote d h95 hnc).2
    · rw [normalizeRecord_id d hnc h95] at h
      exact absurd h (by simp [hnc])

/-! The completion invariant is preserved by every operation. -/

theorem mapInv_empty : mapInv emptyProgress := by
  intro id r h
  simp [emptyProgress] at h

theorem mapInv_setKey {m : VideoProgress} {k : String} {v : VideoProgressData}
    (hm : mapInv m) (hv : v.isCompleted = true → v.percentage = 100) :
    mapInv (setKey m k v) := by
  intro id r h hc
  by_cases hk : id = k
  · rw [hk, setKey_self] at h
    cases h
    exact hv hc
  · rw [setKey_ne _ _ _ _ hk] at h
    exact hm id r h hc

theorem mapInv_delKey {m : VideoProgress} (k : String) (hm : mapInv m) :
    mapInv (delKey m k) := by
  intro id r h hc
  by_cases hk : id = k
  · simp [delKey, hk] at h
  · simp only [delKey, if_neg hk] at h
    exact hm id r h hc

theorem mapInv_normalizeMap (m : VideoProgress) : mapInv (normalizeMap m) := by
  intro id r h hc
  unfold normalizeMap at h
  cases hm : m id with
  | none => rw [hm] at h; simp at h
  | some d =>
      rw [hm] at h
      simp only [Option.map_some', Option.some.injEq] at h
      subst h
      exact normalizeRecord_inv d hc

theorem mapInv_saveDisk {newMap oldDisk : VideoProgress} (ok : Bool)
    (h1 : mapInv newMap) (h2 : mapInv oldDisk) :
    mapInv (saveDisk ok newMap oldDisk) := by
  cases ok <;> simp [saveDisk, h1, h2]

theorem storeInv_init : storeInv initState :=
  ⟨mapInv_empty, mapInv_empty⟩

/-- Other keys are untouched by `updateProgress`. -/
theorem updateProgress_mem_other (s : StoreState) (id2 : String) (p : ℚ)
    (n : ℤ) (ok : Bool) (id : String) (hne : id ≠ id2) :
    (updateProgress s id2 p n ok).mem id = s.mem id := by
  by_cases hg : id2 = "" ∨ p < 0
  · rw [updateProgress_guard_nop s id2 p n ok hg]
  · push_neg at hg
    obtain ⟨hid2, hp⟩ := hg
    cases hm : s.mem id2 with
    | none =>
        rw [updateProgress_fresh s id2 p n ok hid2 hp hm]
        exact setKey_ne _ _ _ _ hne
    | some r =>
        by_cases hc : r.isCompleted = true
        · by_cases h100 : r.percentage = 100
          · rw [updateProgress_completed_nop s id2 p n ok r hid2 hp hm hc h100]
          · rw [updateProgress_repair s id2 p n ok r hid2 hp hm hc h100]
            exact setKey_ne _ _ _ _ hne
        · have hcf : r.isCompleted = false := by simpa using hc
          by_cases hlt : min p 100 < r.percentage
          · rw [updateProgress_reject s id2 p n ok r hid2 hp hm hcf hlt]
          · rw [updateProgress_accept s id2 p n ok r hid2 hp hm hcf (not_lt.1 hlt)]
            exact setKey_ne _ _ _ _ hne

/-- Other keys are untouched by `markCompleted`. -/
theorem markCompleted_mem_other (s : StoreState) (id2 : String) (n : ℤ)
    (ok : Bool) (id : String) (hne : id ≠ id2) :
    (markCompleted s id2 n ok).mem id = s.mem id := by
  by_cases hid2 : id2 = ""
  · simp [markCompleted, hid2]
  · simp only [markCompleted, if_neg hid2]
    exact setKey_ne _ _ _ _ hne

/-- The record `markCompleted` leaves at its key. -/
theorem markCompleted_mem_self (s : StoreState) (id : String) (n : ℤ)
    (ok : Bool) (hid : id ≠ "") :
    (markCompleted s id n ok).mem id =
      some { (s.mem id).getD
          { watchedSeconds := 0, duration := 0, percentage := 100,
            lastWatched := n, isCompleted := false } with
        percentage := 100, isCompleted := true, lastWatched := n } := by
  simp only [markCompleted, if_neg hid]
  exact setKey_self _ _ _

/-- Once a record reads completed, any later `updateProgress` call (for
this or any other byte) leaves it completed. -/
theorem updateProgress_keeps_completed (s : StoreState) (id2 : String)
    (p : ℚ) (n : ℤ) (ok : Bool) (id : String)
    (h : isCompletedOf s id = true) :
    isCompletedOf (updateProgress s id2 p n ok) id = true := by
  obtain ⟨r, hm, hc⟩ : ∃ r, s.mem id = some r ∧ r.isCompleted = true := by
    unfold isCompletedOf at h
    cases hm : s.mem id with
    | none => rw [hm] at h; simp at h
    | some r =>
        rw [hm] at h
        exact ⟨r, rfl, by simpa using h⟩
  by_cases hne : id = id2
  · subst hne
    by_cases hg : id = "" ∨ p < 0
    · rw [updateProgress_guard_nop s id p n ok hg, isCompletedOf, hm]
      simpa using hc
    · push_neg at hg
      obtain ⟨hid, hp⟩ := hg
      by_cases h100 : r.percentage = 100
      · rw [updateProgress_completed_nop s id p n ok r hid hp hm hc h100,
          isCompletedOf, hm]
        simpa using hc
      · rw [updateProgress_repair s id p n ok r hid hp hm hc h100]
        simp [isCompletedOf, setKey_self, hc]
  · rw [isCompletedOf, updateProgress_mem_other s id2 p n ok id hne, hm]
    simpa using hc

theorem storeInv_updateProgress (s : StoreState) (id : String) (p : ℚ)
    (n : ℤ) (ok : Bool) (h : storeInv s) :
    storeInv (updateProgress s id p n ok) := by
  by_cases hg : id = "" ∨ p < 0
  · rwa [updateProgress_guard_nop s id p n ok hg]
  · push_neg at hg
    obtain ⟨hid, hp⟩ := hg
    cases hm : s.mem id with
    | none =>
        rw [updateProgress_fresh s id p n ok hid hp hm]
        have hmem := mapInv_setKey (k := id) (v := acceptedRecord (min p 100) n)
          h.1 (acceptedRecord_inv _ n)
        exact ⟨hmem, mapInv_saveDisk ok hmem h.2⟩
    | some r =>
        by_cases hc : r.isCompleted = true
        · by_cases h100 : r.percentage = 100
          · rwa [updateProgress_completed_nop s id p n ok r hid hp hm hc h100]
          · rw [updateProgress_repair s id p n ok r hid hp hm hc h100]
            have hmem := mapInv_setKey (k := id) (v := { r with percentage := 100 })
              h.1 (fun _ => rfl)
            exact ⟨hmem, mapInv_saveDisk ok hmem h.2⟩
        · have hcf : r.isCompleted = false := by simpa using hc
          by_cases hlt : min p 100 < r.percentage
          · rwa [updateProgress_reject s id p n ok r hid hp hm hcf hlt]
          · rw [updateProgress_accept s id p n ok r hid hp hm hcf (not_lt.1 hlt)]
            have hmem := mapInv_setKey (k := id) (v := acceptedRecord (min p 100) n)
              h.1 (acceptedRecord_inv _ n)
            exact ⟨hmem, mapInv_saveDisk ok hmem h.2⟩

theorem storeInv_markCompleted (s : StoreState) (id : String) (n : ℤ)
    (ok : Bool) (h : storeInv s) :
    storeInv (markCompleted s id n ok) := by
  by_cases hid : id = ""
  · simpa [markCompleted, hid] using h
  · simp only [markCompleted, if_neg hid]
    have hmem := mapInv_setKey (k := id)
      (v := { (s.mem id).getD
          { watchedSeconds := 0, duration := 0, percentage := 100,
            lastWatched := n, isCompleted := false } with
        percentage := 100, isCompleted := true, lastWatched := n }) h.1
      (fun _ => rfl)
    exact ⟨hmem, mapInv_saveDisk ok hmem h.2⟩

theorem storeInv_applyOp (s : StoreState) (op : StoreOp) (h : storeInv s) :
    storeInv (applyOp s op) := by
  cases op with
  | update id pct now ok => exact storeInv_updateProgress s id pct now ok h
  | mark id now ok => exact storeInv_markCompleted s id now ok h
  | resetAll ok =>
      cases ok
      · simpa [applyOp, resetAllProgress] using h
      · simp only [applyOp, resetAllProgress]
        exact ⟨mapInv_empty, mapInv_empty⟩
  | resetOne id ok =>
      by_cases hid : id = ""
      · simpa [applyOp, resetVideoProgress, hid] using h
      · simp only [applyOp, resetVideoProgress, if_neg hid]
        have hmem := mapInv_delKey id h.1
        exact ⟨hmem, mapInv_saveDisk ok hmem h.2⟩
  | reload wb =>
      refine ⟨mapInv_normalizeMap s.disk, ?_⟩
      cases wb
      · exact h.2
      · exact mapInv_normalizeMap s.disk

theorem storeInv_applyOps (ops : List StoreOp) (s : StoreState)
    (h : storeInv s) : storeInv (applyOps ops s) := by
  induction ops generalizing s with
  | nil => exact h
  | cons op rest ih =>
      have : applyOps (op :: rest) s = applyOps rest (applyOp s op) := rfl
      rw [this]
      exact ih _ (storeInv_applyOp s op h)

/-- C1: Completion invariant — after any sequence of Progress Store
operations (updateProgress, markCompleted, load-time normalization,
resets) starting from a fresh store, every stored record with
`isCompleted = true` has `percentage = 100`, so each read of such a
record returns exactly 100, including after a reload of persisted
state (`StoreOp.reload` is in the operation alphabet). -/
theorem claim_C1_completion_invariant (ops : List StoreOp) (id : String)
    (r : VideoProgressData)
    (hmem : (applyOps ops initState).mem id = some r)
    (hc : r.isCompleted = true) : r.percentage = 100 :=
  (storeInv_applyOps ops initState storeInv_init).1 id r hmem hc

/-- Witness for C1: a session that marks byte `a` completed, then
reloads from the persisted state, stores a completed record, whose
percentage the invariant pins to 100. -/
theorem claim_C1_completion_invariant_witness :
    ({ watchedSeconds := 0, duration := 0, percentage := 100,
       lastWatched := 3, isCompleted := true } : VideoProgressData).percentage
      = 100 :=
  claim_C1_completion_invariant
    [StoreOp.mark "a" 3 true, StoreOp.reload true] "a" _ (by decide) (by decide)

/-- A second `updateProgress` with a strictly smaller raw value is a
no-op on a state whose record at `id` is a freshly accepted record. -/
theorem updateProgress_nop_on_accepted (s2 : StoreState) (id : String)
    (p p2 : ℚ) (n : ℤ) (n2 : ℤ) (ok2 : Bool)
    (hid : id ≠ "") (hp2 : 0 ≤ p2) (hlt : p2 < p)
    (hm : s2.mem id = some (acceptedRecord (min p 100) n)) :
    updateProgress s2 id p2 n2 ok2 = s2 := by
  by_cases h95 : 95 ≤ min p 100
  · exact updateProgress_completed_nop s2 id p2 n2 ok2 _ hid hp2 hm
      (acceptedRecord_completed _ n h95).1 (acceptedRecord_completed _ n h95).2
  · have hc := acceptedRecord_below95 (min p 100) n (not_le.1 h95)
    apply updateProgress_reject s2 id p2 n2 ok2 _ hid hp2 hm hc.1
    rw [hc.2]
    have hplt : p < 100 := by
      by_contra hge
      exact h95 (by rw [min_eq_right (not_lt.1 hge)]; norm_num)
    rw [min_eq_left (le_of_lt hplt)]
    exact lt_of_le_of_lt (min_le_left p2 100) hlt

/-- C3: Monotonic non-regression — `updateProgress(id, p)` followed by
`updateProgress(id, p2)` with `p2 < p` and no reset in between leaves
the whole store exactly as it was after the first call (the lower
second update is a no-op), in particular the stored percentage. -/
theorem claim_C3_monotone_non_regression (s : StoreState) (id : String)
    (p p2 : ℚ) (n n2 : ℤ) (ok ok2 : Bool) (h : p2 < p) :
    updateProgress (updateProgress s id p n ok) id p2 n2 ok2 =
      updateProgress s id p n ok := by
  by_cases hid : id = ""
  · exact updateProgress_guard_nop _ id p2 n2 ok2 (Or.inl hid)
  by_cases hp2 : p2 < 0
  · exact updateProgress_guard_nop _ id p2 n2 ok2 (Or.inr hp2)
  have hp2n : 0 ≤ p2 := not_lt.1 hp2
  have hp : 0 ≤ p := le_of_lt (lt_of_le_of_lt hp2n h)
  cases hm : s.mem id with
  | none =>
      rw [updateProgress_fresh s id p n ok hid hp hm]
      exact updateProgress_nop_on_accepted _ id p p2 n n2 ok2 hid hp2n h
        (setKey_self _ _ _)
  | some r =>
      by_cases hc : r.isCompleted = true
      · by_cases h100 : r.percentage = 100
        · rw [updateProgress_completed_nop s id p n ok r hid hp hm hc h100]
          exact updateProgress_completed_nop s id p2 n2 ok2 r hid hp2n hm hc h100
        · rw [updateProgress_repair s id p n ok r hid hp hm hc h100]
          exact updateProgress_completed_nop _ id p2 n2 ok2
            { r with percentage := 100 } hid hp2n (setKey_self _ _ _) hc rfl
      · have hcf : r.isCompleted = false := by simpa using hc
        by_cases hlt : min p 100 < r.percentage
        · rw [updateProgress_reject s id p n ok r hid hp hm hcf hlt]
          exact updateProgress_reject s id p2 n2 ok2 r hid hp2n hm hcf
            (lt_of_le_of_lt (min_le_min (le_of_lt h) le_rfl) hlt)
        · rw [updateProgress_accept s id p n ok r hid hp hm hcf (not_lt.1 hlt)]
          exact updateProgress_nop_on_accepted _ id p p2 n n2 ok2 hid hp2n h
            (setKey_self _ _ _)

/-- Witness for C3: percentages 50 then 30 on a fresh store. -/
theorem claim_C3_monotone_non_regression_witness :
    updateProgress (updateProgress initState "a" 50 0 true) "a" 30 1 true =
      updateProgress initState "a" 50 0 true :=
  claim_C3_monotone_non_regression initState "a" 50 30 0 1 true true (by norm_num)

/-- One later `updateProgress` call: byte id, raw percentage, timestamp,
write success. -/
def UpdCall : Type := String × ℚ × ℤ × Bool

/-- A burst of later `updateProgress` calls. -/
def applyUpds (l : List UpdCall) (s : StoreState) : StoreState :=
  l.foldl (fun s2 c => updateProgress s2 c.1 c.2.1 c.2.2.1 c.2.2.2) s

theorem applyUpds_keeps_completed (l : List UpdCall) (s : StoreState)
    (id : String) (h : isCompletedOf s id = true) :
    isCompletedOf (applyUpds l s) id = true := by
  induction l generalizing s with
  | nil => exact h
  | cons c rest ih =>
      exact ih _ (updateProgress_keeps_completed s c.1 c.2.1 c.2.2.1 c.2.2.2 id h)

/-- C2: an accepted `updateProgress` call whose value is at least 95
(item not previously completed, value not below the stored percentage)
stores a record with `isCompleted = true` and `percentage` exactly 100
(not the raw value), and the item stays completed under every later
sequence of `updateProgress` calls. -/
theorem claim_C2_completion_threshold (s : StoreState) (id : String)
    (p : ℚ) (n : ℤ) (ok : Bool) (rest : List UpdCall)
    (hid : id ≠ "") (h95 : 95 ≤ p)
    (hacc : ∀ r, s.mem id = some r →
      r.isCompleted = false ∧ r.percentage ≤ min p 100) :
    (updateProgress s id p n ok).mem id =
        some { watchedSeconds := 0, duration := 0, percentage := 100,
               lastWatched := n, isCompleted := true } ∧
    isCompletedOf (applyUpds rest (updateProgress s id p n ok)) id = true := by
  have hp : 0 ≤ p := le_trans (by norm_num) h95
  have h95c : (95 : ℚ) ≤ min p 100 := le_min h95 (by norm_num)
  have hrec : acceptedRecord (min p 100) n =
      { watchedSeconds := 0, duration := 0, percentage := 100,
        lastWatched := n, isCompleted := true } := by
    simp [acceptedRecord, h95c]
  have hmem : (updateProgress s id p n ok).mem id =
      some (acceptedRecord (min p 100) n) := by
    cases hm : s.mem id with
    | none =>
        rw [updateProgress_fresh s id p n ok hid hp hm]
        exact setKey_self _ _ _
    | some r =>
        obtain ⟨hc, hle⟩ := hacc r hm
        rw [updateProgress_accept s id p n ok r hid hp hm hc hle]
        exact setKey_self _ _ _
  refine ⟨by rw [hmem, hrec], ?_⟩
  apply applyUpds_keeps_completed
  rw [isCompletedOf, hmem, hrec]
  rfl

/-- Witness for C2: value 96 on a fresh store, then a later lower call. -/
theorem claim_C2_completion_threshold_witness :
    (updateProgress initState "a" 96 0 true).mem "a" =
        some { watchedSeconds := 0, duration := 0, percentage := 100,
               lastWatched := 0, isCompleted := true } ∧
    isCompletedOf
        (applyUpds [("a", 50, 1, true)] (updateProgress initState "a" 96 0 true))
        "a" = true :=
  claim_C2_completion_threshold initState "a" 96 0 true [("a", 50, 1, true)]
    (by decide) (by norm_num)
    (by intro r hr; exact absurd hr (by simp [initState, emptyProgress]))

/-- C10: every record written by an accepted `updateProgress` call has
`watchedSeconds = 0` and `duration = 0` — the call overwrites these
fields with zero instead of preserving or accumulating them — while
`markCompleted` preserves the existing record's `watchedSeconds` and
`duration`. -/
theorem claim_C10_zeroed_counters (s : StoreState) (id : String) (p : ℚ)
    (n : ℤ) (ok : Bool) (r : VideoProgressData)
    (hid : id ≠ "") (hp : 0 ≤ p)
    (hacc : ∀ r2, s.mem id = some r2 →
      r2.isCompleted = false ∧ r2.percentage ≤ min p 100)
    (hr : s.mem id = some r) :
    (((updateProgress s id p n ok).mem id).map VideoProgressData.watchedSeconds
        = some 0 ∧
      ((updateProgress s id p n ok).mem id).map VideoProgressData.duration
        = some 0) ∧
    (((markCompleted s id n ok).mem id).map VideoProgressData.watchedSeconds
        = some r.watchedSeconds ∧
      ((markCompleted s id n ok).mem id).map VideoProgressData.duration
        = some r.duration) := by
  constructor
  · obtain ⟨hc, hle⟩ := hacc r hr
    rw [updateProgress_accept s id p n ok r hid hp hr hc hle]
    constructor <;> simp [setKey, acceptedRecord]
  · rw [markCompleted_mem_self s id n ok hid, hr]
    exact ⟨rfl, rfl⟩

/-- Witness for C10: a half-watched record gets its counters zeroed by
a further accepted update, while `markCompleted` keeps them. -/
theorem claim_C10_zeroed_counters_witness :
    (((updateProgress (updateProgress initState "a" 50 0 true) "a" 60 1 true).mem
          "a").map VideoProgressData.watchedSeconds = some 0 ∧
      ((updateProgress (updateProgress initState "a" 50 0 true) "a" 60 1 true).mem
          "a").map VideoProgressData.duration = some 0) ∧
    (((markCompleted (updateProgress initState "a" 50 0 true) "a" 2 true).mem
          "a").map VideoProgressData.watchedSeconds = some 0 ∧
      ((markCompleted (updateProgress initState "a" 50 0 true) "a" 2 true).mem
          "a").map VideoProgressData.duration = some 0) :=
  claim_C10_zeroed_counters (updateProgress initState "a" 50 0 true) "a" 60 2
    true { watchedSeconds := 0, duration := 0, percentage := 50,
           lastWatched := 0, isCompleted := false }
    (by decide) (by norm_num)
    (by
      intro r2 hr2
      have hv : (updateProgress initState "a" 50 0 true).mem "a" =
          some (VideoProgressData.mk 0 0 50 0 false) := by decide
      rw [hv, Option.some.injEq] at hr2
      rw [← hr2]
      exact ⟨rfl, le_min (by norm_num) (by norm_num)⟩)
    (by decide)

/-- Folding the normalized entries builds exactly the pointwise
normalization of the object the raw entries build. -/
theorem toMap_fold_normalize (l : List (String × VideoProgressData))
    (m : VideoProgress) (id : String) :
    (l.map (fun e => (e.1, normalizeRecord e.2))).foldl
        (fun m2 e => setKey m2 e.1 e.2) (fun k => (m k).map normalizeRecord) id
      = ((l.foldl (fun m2 e => setKey m2 e.1 e.2) m) id).map normalizeRecord := by
  induction l generalizing m with
  | nil => rfl
  | cons e rest ih =>
      simp only [List.map_cons, List.foldl_cons]
      have hbase : setKey (fun k => (m k).map normalizeRecord) e.1
          (normalizeRecord e.2)
          = fun k => ((setKey m e.1 e.2) k).map normalizeRecord := by
        funext k
        by_cases hk : k = e.1 <;> simp [setKey, hk]
      rw [hbase]
      exact ih (setKey m e.1 e.2)

/-- Entry-level load agrees with pointwise record normalization. -/
theorem toMap_normalizeEntries (l : Entries) (id : String) :
    toMap (normalizeEntries l) id = (toMap l id).map normalizeRecord := by
  have hbase : (fun k => (emptyProgress k).map normalizeRecord) = emptyProgress := by
    funext k
    simp [emptyProgress]
  unfold toMap normalizeEntries
  rw [← hbase]
  exact toMap_fold_normalize l emptyProgress id

/-- The per-record `needsUpdate` flag fires exactly when normalization
changes the record. -/
theorem recNeedsUpdate_iff (d : VideoProgressData) :
    recNeedsUpdate d = true ↔ normalizeRecord d ≠ d := by
  obtain ⟨ws, dv, pc, lw, ic⟩ := d
  cases ic
  · by_cases h95 : (95 : ℚ) ≤ pc <;>
      simp [recNeedsUpdate, normalizeRecord, h95]
  · by_cases h100 : pc = 100 <;>
      simp [recNeedsUpdate, normalizeRecord, h100, eq_comm]

/-- The load-level `needsUpdate` flag fires exactly when some stored
entry is changed by normalization. -/
theorem loadNeedsUpdate_iff (l : Entries) :
    loadNeedsUpdate l = true ↔ ∃ e ∈ l, normalizeRecord e.2 ≠ e.2 := by
  unfold loadNeedsUpdate
  rw [List.any_eq_true]
  constructor
  · rintro ⟨e, he, hne⟩
    exact ⟨e, he, (recNeedsUpdate_iff e.2).1 hne⟩
  · rintro ⟨e, he, hne⟩
    exact ⟨e, he, (recNeedsUpdate_iff e.2).2 hne⟩

/-- C4: load-time normalization — loading a persisted entry list gives
the in-memory map whose record at every id is the normalization of the
stored record (completed records off 100 repaired to 100, records at 95
or above promoted to completed at 100); the repaired form is written
back exactly when some record changed; and the legacy record with
`isCompleted = true` and `percentage = 60` loads as a completed record
with `percentage = 100`. -/
theorem claim_C4_load_normalization :
    (∀ l id, loadMem l id = (toMap l id).map normalizeRecord) ∧
    (∀ d, d.isCompleted = true →
      (normalizeRecord d).isCompleted = true ∧ (normalizeRecord d).percentage = 100) ∧
    (∀ d, 95 ≤ d.percentage → d.isCompleted = false →
      (normalizeRecord d).isCompleted = true ∧ (normalizeRecord d).percentage = 100) ∧
    (∀ l, (loadNeedsUpdate l = true ↔ ∃ e ∈ l, normalizeRecord e.2 ≠ e.2) ∧
      (loadNeedsUpdate l = true → loadDisk l true = normalizeEntries l) ∧
      (loadNeedsUpdate l = false → ∀ ok, loadDisk l ok = l)) ∧
    (normalizeRecord (VideoProgressData.mk 0 0 60 0 true) =
      VideoProgressData.mk 0 0 100 0 true) := by
  refine ⟨fun l id => toMap_normalizeEntries l id,
    normalizeRecord_completed, normalizeRecord_promote,
    fun l => ⟨loadNeedsUpdate_iff l, ?_, ?_⟩, by decide⟩
  · intro h
    simp [loadDisk, h]
  · intro h ok
    simp [loadDisk, h]

/-- Witness for C4: a one-record legacy store normalizes on load and is
written back. -/
theorem claim_C4_load_normalization_witness :
    loadMem [("a", VideoProgressData.mk 0 0 60 0 true)] "a" =
        some (VideoProgressData.mk 0 0 100 0 true) ∧
    loadDisk [("a", VideoProgressData.mk 0 0 60 0 true)] true =
        [("a", VideoProgressData.mk 0 0 100 0 true)] := by
  constructor
  · rw [claim_C4_load_normalization.1 [("a", VideoProgressData.mk 0 0 60 0 true)] "a"]
    decide
  · rw [(claim_C4_load_normalization.2.2.2.1
      [("a", VideoProgressData.mk 0 0 60 0 true)]).2.1 (by decide)]
    decide

theorem setKey_setKey (m : VideoProgress) (k : String) (v : VideoProgressData) :
    setKey (setKey m k v) k v = setKey m k v := by
  funext k2
  by_cases hk : k2 = k <;> simp [setKey, hk]

/-- C5 counterexample: the claim says a second `markCompleted` leaves
the stored record unchanged, but the source refreshes `lastWatched` to
`Date.now()` on every call, so with the clock advanced from 0 to 1 the
stored record differs after the second call. -/
theorem claim_C5_counterexample :
    (markCompleted (markCompleted initState "a" 0 true) "a" 1 true).mem "a" ≠
      (markCompleted initState "a" 0 true).mem "a" := by
  decide

/-- C5 amended: for every prior state (absent, partial, or completed),
`markCompleted` leaves a record with `isCompleted = true` and
`percentage = 100`; a second call is idempotent up to the `lastWatched`
timestamp — it preserves `watchedSeconds`, `duration`, `percentage` and
`isCompleted` and only refreshes `lastWatched` to the later call's
clock; with an unchanged clock the second call is literally the
identity on the store. -/
theorem claim_C5_markCompleted_amended (s : StoreState) (id : String)
    (n1 n2 : ℤ) (ok1 ok2 : Bool) (hid : id ≠ "") :
    (((markCompleted s id n1 ok1).mem id).map VideoProgressData.isCompleted
        = some true ∧
      ((markCompleted s id n1 ok1).mem id).map VideoProgressData.percentage
        = some 100) ∧
    (((markCompleted (markCompleted s id n1 ok1) id n2 ok2).mem id).map
        VideoProgressData.watchedSeconds
        = ((markCompleted s id n1 ok1).mem id).map VideoProgressData.watchedSeconds ∧
      ((markCompleted (markCompleted s id n1 ok1) id n2 ok2).mem id).map
        VideoProgressData.duration
        = ((markCompleted s id n1 ok1).mem id).map VideoProgressData.duration ∧
      ((markCompleted (markCompleted s id n1 ok1) id n2 ok2).mem id).map
        VideoProgressData.percentage = some 100 ∧
      ((markCompleted (markCompleted s id n1 ok1) id n2 ok2).mem id).map
        VideoProgressData.isCompleted = some true ∧
      ((markCompleted (markCompleted s id n1 ok1) id n2 ok2).mem id).map
        VideoProgressData.lastWatched = some n2) ∧
    markCompleted (markCompleted s id n1 ok1) id n1 ok1 =
      markCompleted s id n1 ok1 := by
  have h1 := markCompleted_mem_self s id n1 ok1 hid
  have h2 := markCompleted_mem_self (markCompleted s id n1 ok1) id n2 ok2 hid
  refine ⟨⟨by rw [h1]; rfl, by rw [h1]; rfl⟩, ?_, ?_⟩
  · rw [h2, h1]
    exact ⟨rfl, rfl, rfl, rfl, rfl⟩
  · have h3 := markCompleted_mem_self (markCompleted s id n1 ok1) id n1 ok1 hid
    apply StoreState.ext
    · funext k
      by_cases hk : k = id
      · subst hk
        rw [h3, h1]
        rfl
      · rw [markCompleted_mem_other _ id n1 ok1 k hk]
    · simp only [markCompleted, if_neg hid, setKey_self, Option.getD_some]
      rw [setKey_setKey]
      cases ok1 <;> simp [saveDisk]

/-- Witness for C5: the amended statement at a concrete store. -/
theorem claim_C5_markCompleted_amended_witness :
    (((markCompleted initState "a" 0 true).mem "a").map
        VideoProgressData.isCompleted = some true ∧
      ((markCompleted initState "a" 0 true).mem "a").map
        VideoProgressData.percentage = some 100) ∧
    (((markCompleted (markCompleted initState "a" 0 true) "a" 1 true).mem "a").map
        VideoProgressData.watchedSeconds
        = ((markCompleted initState "a" 0 true).mem "a").map
            VideoProgressData.watchedSeconds ∧
      ((markCompleted (markCompleted initState "a" 0 true) "a" 1 true).mem "a").map
        VideoProgressData.duration
        = ((markCompleted initState "a" 0 true).mem "a").map
            VideoProgressData.duration ∧
      ((markCompleted (markCompleted initState "a" 0 true) "a" 1 true).mem "a").map
        VideoProgressData.percentage = some 100 ∧
      ((markCompleted (markCompleted initState "a" 0 true) "a" 1 true).mem "a").map
        VideoProgressData.isCompleted = some true ∧
      ((markCompleted (markCompleted initState "a" 0 true) "a" 1 true).mem "a").map
        VideoProgressData.lastWatched = some 1) ∧
    markCompleted (markCompleted initState "a" 0 true) "a" 0 true =
      markCompleted initState "a" 0 true :=
  claim_C5_markCompleted_amended initState "a" 0 1 true true (by decide)

/-- C6 counterexample: the claim says an out-of-range input behaves
like its nearest in-range value, but on a fresh store the negative
input -1 is rejected outright (no record is created) while input 0
creates a record — so -1 does not behave like 0. -/
theorem claim_C6_counterexample :
    (updateProgress initState "a" (-1) 0 true).mem "a" ≠
      (updateProgress initState "a" 0 0 true).mem "a" := by
  decide

/-- C6 amended: an input above 100 is clamped — it behaves exactly like
input 100 — but a negative input is not clamped to 0: the guard
`percentage < 0` rejects the whole call as a no-op. -/
theorem claim_C6_clamping_amended (s : StoreState) (id : String) (p : ℚ)
    (n : ℤ) (ok : Bool) :
    (p < 0 → updateProgress s id p n ok = s) ∧
    (100 ≤ p → updateProgress s id p n ok = updateProgress s id 100 n ok) := by
  constructor
  · intro hp
    exact updateProgress_guard_nop s id p n ok (Or.inr hp)
  · intro hp
    by_cases hid : id = ""
    · rw [updateProgress_guard_nop s id p n ok (Or.inl hid),
        updateProgress_guard_nop s id 100 n ok (Or.inl hid)]
    · have hp0 : (0 : ℚ) ≤ p := le_trans (by norm_num) hp
      have hmin : min p 100 = min (100 : ℚ) 100 := by
        rw [min_eq_right hp, min_self]
      cases hm : s.mem id with
      | none =>
          rw [updateProgress_fresh s id p n ok hid hp0 hm,
            updateProgress_fresh s id 100 n ok hid (by norm_num) hm, hmin]
      | some r =>
          by_cases hc : r.isCompleted = true
          · by_cases h100 : r.percentage = 100
            · rw [updateProgress_completed_nop s id p n ok r hid hp0 hm hc h100,
                updateProgress_completed_nop s id 100 n ok r hid
                  (by norm_num) hm hc h100]
            · rw [updateProgress_repair s id p n ok r hid hp0 hm hc h100,
                updateProgress_repair s id 100 n ok r hid
                  (by norm_num) hm hc h100]
          · have hcf : r.isCompleted = false := by simpa using hc
            by_cases hlt : min p 100 < r.percentage
            · rw [updateProgress_reject s id p n ok r hid hp0 hm hcf hlt,
                updateProgress_reject s id 100 n ok r hid (by norm_num) hm hcf
                  (hmin ▸ hlt)]
            · rw [updateProgress_accept s id p n ok r hid hp0 hm hcf
                  (not_lt.1 hlt),
                updateProgress_accept s id 100 n ok r hid (by norm_num) hm hcf
                  (hmin ▸ not_lt.1 hlt), hmin]

/-- Witness for C6 amended: -5 is a no-op, 150 behaves like 100. -/
theorem claim_C6_clamping_amended_witness :
    updateProgress initState "a" (-5) 0 true = initState ∧
    updateProgress initState "a" 150 0 true =
      updateProgress initState "a" 100 0 true :=
  ⟨(claim_C6_clamping_amended initState "a" (-5) 0 true).1 (by norm_num),
   (claim_C6_clamping_amended initState "a" 150 0 true).2 (by norm_num)⟩

/-- C9 counterexample: the claim says the in-memory state still
reflects every mutation when the storage write throws, but a failing
`localStorage.removeItem` inside `resetAllProgress` skips the
`setProgress` call, so the completed record for byte `a` is still in
memory after the reset. -/
theorem claim_C9_counterexample :
    (resetAllProgress (markCompleted initState "a" 0 true) false).mem "a"
      ≠ none := by
  decide

/-- C9 amended: every operation is total (the throwing write is caught
inside `saveProgress`, so no exception reaches the caller) and for
`updateProgress`, `markCompleted` and `resetVideoProgress` the
in-memory result is the same whether or not the write succeeds; only
`resetAllProgress` with a failing storage removal leaves the in-memory
map (and everything else) unchanged instead of clearing it. -/
theorem claim_C9_storage_failure_amended (s : StoreState) (id : String)
    (p : ℚ) (n : ℤ) :
    (∀ ok, (updateProgress s id p n ok).mem = (updateProgress s id p n true).mem) ∧
    (∀ ok, (markCompleted s id n ok).mem = (markCompleted s id n true).mem) ∧
    (∀ ok, (resetVideoProgress s id ok).mem = (resetVideoProgress s id true).mem) ∧
    resetAllProgress s false = s := by
  refine ⟨?_, ?_, ?_, rfl⟩
  · intro ok
    by_cases hg : id = "" ∨ p < 0
    · rw [updateProgress_guard_nop s id p n ok hg,
        updateProgress_guard_nop s id p n true hg]
    · push_neg at hg
      obtain ⟨hid, hp⟩ := hg
      cases hm : s.mem id with
      | none =>
          rw [updateProgress_fresh s id p n ok hid hp hm,
            updateProgress_fresh s id p n true hid hp hm]
      | some r =>
          by_cases hc : r.isCompleted = true
          · by_cases h100 : r.percentage = 100
            · rw [updateProgress_completed_nop s id p n ok r hid hp hm hc h100,
                updateProgress_completed_nop s id p n true r hid hp hm hc h100]
            · rw [updateProgress_repair s id p n ok r hid hp hm hc h100,
                updateProgress_repair s id p n true r hid hp hm hc h100]
          · have hcf : r.isCompleted = false := by simpa using hc
            by_cases hlt : min p 100 < r.percentage
            · rw [updateProgress_reject s id p n ok r hid hp hm hcf hlt,
                updateProgress_reject s id p n true r hid hp hm hcf hlt]
            · rw [updateProgress_accept s id p n ok r hid hp hm hcf
                  (not_lt.1 hlt),
                updateProgress_accept s id p n true r hid hp hm hcf
                  (not_lt.1 hlt)]
  · intro ok
    by_cases hid : id = ""
    · simp [markCompleted, hid]
    · simp only [markCompleted, if_neg hid]
  · intro ok
    by_cases hid : id = ""
    · simp [resetVideoProgress, hid]
    · simp only [resetVideoProgress, if_neg hid]

/-- C7: the fallback load state machine — starting a fallback load arms
the fixed 10-second timeout and enters FallbackLoading; if the armed
timeout fires with no load signal the machine reaches FallbackError; a
load signal reaches FallbackReady and cancels the timeout; a user
retry from FallbackError clears the error, re-enters FallbackLoading
with a fresh 10-second timeout, and bumps the iframe key so a new load
attempt starts. -/
theorem claim_C7_fallback_state_machine (s : FallbackState) :
    (isFallbackLoading (fallbackStep s FallbackEvent.startLoad) ∧
      (fallbackStep s FallbackEvent.startLoad).pendingTimeout =
        some IFRAME_LOAD_TIMEOUT ∧ IFRAME_LOAD_TIMEOUT = 10000) ∧
    (isFallbackLoading s → s.pendingTimeout.isSome = true →
      isFallbackError (fallbackStep s FallbackEvent.timeoutFire) ∧
      (fallbackStep s FallbackEvent.timeoutFire).pendingTimeout = none) ∧
    (isFallbackReady (fallbackStep s FallbackEvent.loadSignal) ∧
      (fallbackStep s FallbackEvent.loadSignal).pendingTimeout = none) ∧
    (isFallbackError s →
      isFallbackLoading (fallbackStep s FallbackEvent.retry) ∧
      (fallbackStep s FallbackEvent.retry).pendingTimeout =
        some IFRAME_LOAD_TIMEOUT ∧
      (fallbackStep s FallbackEvent.retry).iframeKey = s.iframeKey + 1) := by
  refine ⟨⟨⟨rfl, rfl⟩, rfl, rfl⟩, ?_, ⟨rfl, rfl⟩, ?_⟩
  · intro hl hsome
    obtain ⟨hld, herr⟩ := hl
    unfold fallbackStep isFallbackError armTimeout
    simp [hld, hsome]
  · intro _
    exact ⟨⟨rfl, rfl⟩, rfl, rfl⟩

/-- Witness for C7: a timeout firing in the loading state reaches the
error state, and retry from the error state re-enters loading. -/
theorem claim_C7_fallback_state_machine_witness :
    isFallbackError
      (fallbackStep ⟨false, false, 0, some 10000⟩ FallbackEvent.timeoutFire) ∧
    isFallbackLoading
      (fallbackStep ⟨false, true, 1, none⟩ FallbackEvent.retry) :=
  ⟨((claim_C7_fallback_state_machine ⟨false, false, 0, some 10000⟩).2.1
      ⟨rfl, rfl⟩ rfl).1,
   ((claim_C7_fallback_state_machine ⟨false, true, 1, none⟩).2.2.2
      ⟨rfl, rfl⟩).1⟩

/-! The watch-time estimator scenario. -/

/-- The record the store holds after `t` accepted estimator ticks below
the completion threshold, the last at clock `n`. -/
def partialRecord (t : ℕ) (n : ℤ) : VideoProgressData :=
  { watchedSeconds := 0, duration := 0, percentage := (t : ℚ) / 60 * 100,
    lastWatched := n, isCompleted := false }

/-- The pinned record the store holds once completion triggered at
clock `n`. -/
def completedRecord (n : ℤ) : VideoProgressData :=
  { watchedSeconds := 0, duration := 0, percentage := 100,
    lastWatched := n, isCompleted := true }

theorem estPercentage_formula (u : ℕ) (h : u ≤ 60) :
    estPercentage u = (u : ℚ) / 60 * 100 := by
  unfold estPercentage ESTIMATED_VIDEO_DURATION
  apply min_eq_left
  have hu : (u : ℚ) ≤ 60 := by exact_mod_cast h
  linarith

theorem estPct_lt_95 (u : ℕ) (h : u ≤ 56) : (u : ℚ) / 60 * 100 < 95 := by
  have hu : (u : ℚ) ≤ 56 := by exact_mod_cast h
  linarith

theorem estPct_mono (t : ℕ) : (t : ℚ) / 60 * 100 < ((t + 1 : ℕ) : ℚ) / 60 * 100 := by
  push_cast
  linarith

/-- One active visible tick from a below-threshold state accepts the
next synthetic percentage and stays below the threshold. -/
theorem estTick_partial_step (id : String) (hid : id ≠ "") (t : ℕ)
    (n n2 : ℤ) (ht : t + 1 ≤ 56) (s : EstimatorState)
    (hwt : s.watchTime = t) (hdm : s.didMark = false)
    (hmem : s.store.mem id = none ∧ t = 0 ∨
      s.store.mem id = some (partialRecord t n)) :
    (estTick id n2 s).watchTime = t + 1 ∧
    (estTick id n2 s).loopCount = s.loopCount ∧
    (estTick id n2 s).didMark = false ∧
    (estTick id n2 s).markCalls = s.markCalls ∧
    (estTick id n2 s).store.mem id = some (partialRecord (t + 1) n2) := by
  have hpct : estPercentage (t + 1) = ((t + 1 : ℕ) : ℚ) / 60 * 100 :=
    estPercentage_formula (t + 1) (by omega)
  have hlt95 : ((t + 1 : ℕ) : ℚ) / 60 * 100 < 95 := estPct_lt_95 (t + 1) ht
  have hcomp : isCompletedOf s.store id = false := by
    rcases hmem with ⟨h0, -⟩ | h1
    · simp [isCompletedOf, h0]
    · simp [isCompletedOf, h1, partialRecord]
  have hcur : currentProgressOf s.store id = (t : ℚ) / 60 * 100 := by
    rcases hmem with ⟨h0, ht0⟩ | h1
    · subst ht0
      simp [currentProgressOf, h0]
    · simp [currentProgressOf, h1, partialRecord]
  have hcond1 : isCompletedOf s.store id = false ∧
      currentProgressOf s.store id < estPercentage (t + 1) := by
    refine ⟨hcomp, ?_⟩
    rw [hcur, hpct]
    exact estPct_mono t
  have hfire : ¬(isCompletedOf s.store id = false ∧ (false : Bool) = false ∧
      95 ≤ estPercentage (t + 1)) := by
    rintro ⟨-, -, hge⟩
    rw [hpct] at hge
    exact absurd hge (not_le.2 hlt95)
  have hnoloop : ¬(ESTIMATED_VIDEO_DURATION ≤ ((t + 1 : ℕ) : ℚ)) := by
    unfold ESTIMATED_VIDEO_DURATION
    have hle : ((t + 1 : ℕ) : ℚ) ≤ 56 := by exact_mod_cast ht
    linarith
  have hET : estTick id n2 s =
      { watchTime := t + 1, loopCount := s.loopCount, didMark := false,
        markCalls := s.markCalls,
        store := updateProgress s.store id (estPercentage (t + 1)) n2 true } := by
    simp only [estTick]
    rw [hwt, hdm]
    simp only [if_pos hcond1, if_neg hfire, decide_eq_false hfire,
      if_neg hnoloop]
    simp
    refine ⟨?_, ?_⟩
    · intro _
      rw [hpct]
      exact hlt95
    · intro _ h2
      rw [hpct] at h2
      exact absurd h2 (not_le.2 hlt95)
  have hp0 : (0 : ℚ) ≤ estPercentage (t + 1) := by
    rw [hpct]
    positivity
  have hclamp : min (estPercentage (t + 1)) 100 = ((t + 1 : ℕ) : ℚ) / 60 * 100 := by
    rw [hpct]
    exact min_eq_left (le_trans (le_of_lt hlt95) (by norm_num))
  have hdec : decide ((95 : ℚ) ≤ ((t + 1 : ℕ) : ℚ) / 60 * 100) = false :=
    decide_eq_false (not_le.2 hlt95)
  have hrec : acceptedRecord (min (estPercentage (t + 1)) 100) n2 =
      partialRecord (t + 1) n2 := by
    rw [hclamp]
    simp only [acceptedRecord, partialRecord, hdec]
    simp
  rw [hET]
  refine ⟨rfl, rfl, rfl, rfl, ?_⟩
  rcases hmem with ⟨h0, -⟩ | h1
  · rw [updateProgress_fresh s.store id _ n2 true hid hp0 h0]
    show setKey s.store.mem id
        (acceptedRecord (min (estPercentage (t + 1)) 100) n2) id =
      some (partialRecord (t + 1) n2)
    rw [setKey_self, hrec]
  · have hle : (partialRecord t n).percentage ≤ min (estPercentage (t + 1)) 100 := by
      rw [hclamp]
      exact le_of_lt (estPct_mono t)
    rw [updateProgress_accept s.store id _ n2 true (partialRecord t n) hid hp0
      h1 rfl hle]
    show setKey s.store.mem id
        (acceptedRecord (min (estPercentage (t + 1)) 100) n2) id =
      some (partialRecord (t + 1) n2)
    rw [setKey_self, hrec]

/-- The estimator state after `t` ticks, for `t` up to 56: watch time
`t`, no completion yet, and the stored record carries the synthetic
percentage of `t` seconds. -/
theorem runTicks_below (id : String) (hid : id ≠ "") :
    ∀ t, t ≤ 56 →
      (runTicks id t).watchTime = t ∧ (runTicks id t).loopCount = 0 ∧
      (runTicks id t).didMark = false ∧ (runTicks id t).markCalls = 0 ∧
      ((runTicks id t).store.mem id = none ∧ t = 0 ∨
        (runTicks id t).store.mem id = some (partialRecord t (t : ℤ)))
  | 0, _ => ⟨rfl, rfl, rfl, rfl, Or.inl ⟨rfl, rfl⟩⟩
  | t + 1, ht => by
      obtain ⟨hwt, hlc, hdm, hmc, hmem⟩ := runTicks_below id hid t (by omega)
      have hstep := estTick_partial_step id hid t (t : ℤ) ((t + 1 : ℕ) : ℤ)
        ht (runTicks id t) hwt hdm hmem
      have hrt : runTicks id (t + 1) =
          estTick id ((t + 1 : ℕ) : ℤ) (runTicks id t) := rfl
      refine ⟨?_, ?_, ?_, ?_, Or.inr ?_⟩ <;> rw [hrt]
      · exact hstep.1
      · rw [hstep.2.1]
        exact hlc
      · exact hstep.2.2.1
      · rw [hstep.2.2.2.1]
        exact hmc
      · exact hstep.2.2.2.2

set_option maxHeartbeats 2000000 in
/-- The 57th tick reaches the synthetic 95 percent threshold: the
progress update pins the stored percentage to 100 and `onMarkCompleted`
fires for the first and only time. -/
theorem runTicks_57 (id : String) (hid : id ≠ "") :
    (runTicks id 57).watchTime = 57 ∧ (runTicks id 57).loopCount = 0 ∧
    (runTicks id 57).didMark = true ∧ (runTicks id 57).markCalls = 1 ∧
    (runTicks id 57).store.mem id = some (completedRecord 57) := by
  obtain ⟨hwt, hlc, hdm, hmc, hmem⟩ := runTicks_below id hid 56 (by norm_num)
  rcases hmem with ⟨-, h56⟩ | h1
  · exact absurd h56 (by norm_num)
  have hpct : estPercentage (56 + 1) = 95 := by
    rw [estPercentage_formula (56 + 1) (by norm_num)]
    norm_num
  have hpct57 : estPercentage 57 = 95 := by
    rw [estPercentage_formula 57 (by norm_num)]
    norm_num
  have hcomp : isCompletedOf (runTicks id 56).store id = false := by
    simp [isCompletedOf, h1, partialRecord]
  have hcur : currentProgressOf (runTicks id 56).store id = (56 : ℚ) / 60 * 100 := by
    simp [currentProgressOf, h1, partialRecord]
  have hcond1 : isCompletedOf (runTicks id 56).store id = false ∧
      currentProgressOf (runTicks id 56).store id < estPercentage (56 + 1) := by
    refine ⟨hcomp, ?_⟩
    rw [hcur, hpct]
    norm_num
  have hfireT : isCompletedOf (runTicks id 56).store id = false ∧
      (false : Bool) = false ∧ 95 ≤ estPercentage (56 + 1) := by
    refine ⟨hcomp, rfl, ?_⟩
    rw [hpct]
  have hnoloop : ¬(ESTIMATED_VIDEO_DURATION ≤ ((56 + 1 : ℕ) : ℚ)) := by
    unfold ESTIMATED_VIDEO_DURATION
    norm_num
  have hrt : runTicks id 57 = estTick id ((57 : ℕ) : ℤ) (runTicks id 56) := rfl
  have hET : (estTick id ((57 : ℕ) : ℤ) (runTicks id 56)).watchTime = 56 + 1 ∧
      (estTick id ((57 : ℕ) : ℤ) (runTicks id 56)).loopCount =
        (runTicks id 56).loopCount ∧
      (estTick id ((57 : ℕ) : ℤ) (runTicks id 56)).didMark = true ∧
      (estTick id ((57 : ℕ) : ℤ) (runTicks id 56)).markCalls =
        (runTicks id 56).markCalls + 1 ∧
      (estTick id ((57 : ℕ) : ℤ) (runTicks id 56)).store = markCompleted
        (updateProgress (runTicks id 56).store id (estPercentage (56 + 1))
          ((57 : ℕ) : ℤ) true) id ((57 : ℕ) : ℤ) true := by
    simp only [estTick]
    rw [hwt, hdm]
    simp only [if_pos hcond1, if_neg hnoloop]
    simp
    refine ⟨⟨hcomp, ?_⟩, ?_⟩
    · rw [hpct57]
    · intro hcontra
      exact absurd (hcontra hcomp) (by rw [hpct57]; norm_num)
  have hp0 : (0 : ℚ) ≤ estPercentage (56 + 1) := by
    rw [hpct]
    norm_num
  have hle : (partialRecord 56 (56 : ℤ)).percentage ≤
      min (estPercentage (56 + 1)) 100 := by
    have : min (estPercentage (56 + 1)) 100 = 95 := by
      rw [hpct]
      norm_num
    rw [this]
    show (56 : ℚ) / 60 * 100 ≤ 95
    norm_num
  have hmem1 : (updateProgress (runTicks id 56).store id (estPercentage (56 + 1))
      ((57 : ℕ) : ℤ) true).mem id = some (completedRecord 57) := by
    rw [updateProgress_accept (runTicks id 56).store id _ _ true
      (partialRecord 56 (56 : ℤ)) hid hp0 h1 rfl hle]
    show setKey (runTicks id 56).store.mem id
        (acceptedRecord (min (estPercentage (56 + 1)) 100) ((57 : ℕ) : ℤ)) id =
      some (completedRecord 57)
    rw [setKey_self]
    have : acceptedRecord (min (estPercentage (56 + 1)) 100) ((57 : ℕ) : ℤ) =
        completedRecord 57 := by
      have hmin : min (estPercentage (56 + 1)) 100 = 95 := by
        rw [hpct]
        norm_num
      rw [hmin]
      simp [acceptedRecord, completedRecord]
    rw [this]
  refine ⟨?_, ?_, ?_, ?_, ?_⟩
  · rw [hrt, hET.1]
  · rw [hrt, hET.2.1]
    exact hlc
  · rw [hrt, hET.2.2.1]
  · rw [hrt, hET.2.2.2.1, hmc]
  · rw [hrt, hET.2.2.2.2, markCompleted_mem_self _ id _ true hid, hmem1]
    rfl

/-- Once the stored record reads completed, a tick neither touches the
store nor fires `onMarkCompleted` again. -/
theorem estTick_completed_nop (id : String) (n : ℤ) (s : EstimatorState)
    (hcomp : isCompletedOf s.store id = true) :
    (estTick id n s).store = s.store ∧ (estTick id n s).didMark = s.didMark ∧
    (estTick id n s).markCalls = s.markCalls := by
  have hc1 : ¬(isCompletedOf s.store id = false ∧
      currentProgressOf s.store id < estPercentage (s.watchTime + 1)) := by
    rintro ⟨hf, -⟩
    rw [hcomp] at hf
    cases hf
  have hc2 : ¬(isCompletedOf s.store id = false ∧ s.didMark = false ∧
      95 ≤ estPercentage (s.watchTime + 1)) := by
    rintro ⟨hf, -⟩
    rw [hcomp] at hf
    cases hf
  simp only [estTick, if_neg hc1, if_neg hc2, decide_eq_false hc2]
  simp

/-- After the completing tick the store and the completion-call count
stay frozen, tick after tick. -/
theorem runTicks_after (id : String) (hid : id ≠ "") :
    ∀ k, (runTicks id (57 + k)).store = (runTicks id 57).store ∧
      (runTicks id (57 + k)).didMark = true ∧
      (runTicks id (57 + k)).markCalls = 1
  | 0 => ⟨rfl, (runTicks_57 id hid).2.2.1, (runTicks_57 id hid).2.2.2.1⟩
  | k + 1 => by
      obtain ⟨hst, hdm, hmc⟩ := runTicks_after id hid k
      have hcomp : isCompletedOf (runTicks id (57 + k)).store id = true := by
        rw [isCompletedOf, hst, (runTicks_57 id hid).2.2.2.2]
        rfl
      have hrt : runTicks id (57 + (k + 1)) =
          estTick id ((57 + k + 1 : ℕ) : ℤ) (runTicks id (57 + k)) := rfl
      obtain ⟨h1, h2, h3⟩ := estTick_completed_nop id ((57 + k + 1 : ℕ) : ℤ)
        (runTicks id (57 + k)) hcomp
      refine ⟨?_, ?_, ?_⟩ <;> rw [hrt]
      · rw [h1]
        exact hst
      · rw [h2]
        exact hdm
      · rw [h3]
        exact hmc

/-- Before any loop reset the watch time just counts the ticks. -/
theorem runTicks_watchTime (id : String) :
    ∀ t, t ≤ 59 → (runTicks id t).watchTime = t
  | 0, _ => rfl
  | t + 1, ht => by
      have ih := runTicks_watchTime id t (by omega)
      have hrt : runTicks id (t + 1) =
          estTick id ((t + 1 : ℕ) : ℤ) (runTicks id t) := rfl
      have hno : ¬(ESTIMATED_VIDEO_DURATION ≤
          (((runTicks id t).watchTime + 1 : ℕ) : ℚ)) := by
        rw [ih]
        unfold ESTIMATED_VIDEO_DURATION
        have hle : ((t + 1 : ℕ) : ℚ) ≤ 59 := by exact_mod_cast ht
        linarith
      rw [hrt]
      simp only [estTick, if_neg hno]
      rw [ih]

/-- C8: the watch-time estimator scenario over the assumed 60-second
duration — with one tick per second while the session is active and the
tab visible, the synthetic percentage after `t` ticks (before any loop
reset) is `min (t / 60 * 100) 100`; at tick 57 it reaches exactly 95,
the stored record becomes completed with percentage pinned to 100, and
`onMarkCompleted` has fired exactly once; from tick 57 on, further
ticks leave the stored record (and the single completion call)
unchanged. -/
theorem claim_C8_watch_time_estimator (id : String) (t : ℕ) (hid : id ≠ "") :
    (t ≤ 59 → (runTicks id t).watchTime = t ∧
      estPercentage (runTicks id t).watchTime = min ((t : ℚ) / 60 * 100) 100) ∧
    estPercentage 57 = 95 ∧
    ((runTicks id 57).store.mem id = some (completedRecord 57) ∧
      (runTicks id 57).markCalls = 1) ∧
    (57 ≤ t → (runTicks id t).store = (runTicks id 57).store ∧
      (runTicks id t).markCalls = 1) := by
  refine ⟨?_, ?_,
    ⟨(runTicks_57 id hid).2.2.2.2, (runTicks_57 id hid).2.2.2.1⟩, ?_⟩
  · intro ht
    have hwt := runTicks_watchTime id t ht
    refine ⟨hwt, ?_⟩
    rw [hwt]
    rfl
  · rw [estPercentage_formula 57 (by norm_num)]
    norm_num
  · intro ht
    obtain ⟨k, rfl⟩ := Nat.exists_eq_add_of_le ht
    exact ⟨(runTicks_after id hid k).1, (runTicks_after id hid k).2.2⟩

/-- Witness for C8: byte `A`, sixty ticks. -/
theorem claim_C8_watch_time_estimator_witness :
    estPercentage 57 = 95 ∧
    (runTicks "A" 57).store.mem "A" = some (completedRecord 57) ∧
    (runTicks "A" 60).store = (runTicks "A" 57).store ∧
    (runTicks "A" 60).markCalls = 1 :=
  ⟨(claim_C8_watch_time_estimator "A" 60 (by decide)).2.1,
   (claim_C8_watch_time_estimator "A" 60 (by decide)).2.2.1.1,
   ((claim_C8_watch_time_estimator "A" 60 (by decide)).2.2.2 (by norm_num)).1,
   ((claim_C8_watch_time_estimator "A" 60 (by decide)).2.2.2 (by norm_num)).2⟩

end ConceptCapsules
